import Mathlib

/-!
Verification of the semantics of `cf.cpp` (a `cp`-like tool built on the
macOS `clonefile` primitive).

The filesystem is modelled as an association list from component paths
(`List String`) to entries (regular file with content and mtime, or
directory).  `FS.insert` conses, and `FS.lookup` returns the first match,
so an insert shadows any older binding at the same path.  Permission bits
and the debug log are outside the model (no clause under scrutiny depends
on them); timestamps are integers.  The source subtree handed to the
recursive tree walker is a snapshot (`FTree`), matching the program's
assumption that nothing else mutates the tree during a run.
-/

/-- A filesystem path, as its list of components. -/
abbrev FPath := List String

/-- A filesystem entry: a regular file (content, last-write time) or a directory. -/
inductive Entry where
  | file (content : String) (mtime : Int)
  | dir
deriving DecidableEq, Repr

/-- The filesystem: an association list from paths to entries.  Later
(consed) bindings shadow earlier ones. -/
structure FS where
  entries : List (FPath × Entry)
deriving DecidableEq, Repr

/-- First-match lookup in an association list of filesystem entries. -/
def lookupEntries : List (FPath × Entry) → FPath → Option Entry
  | [], _ => none
  | (q, e) :: rest, p => if q = p then some e else lookupEntries rest p

/-- Look a path up in the filesystem. -/
def FS.lookup (fs : FS) (p : FPath) : Option Entry :=
  lookupEntries fs.entries p

/-- Write an entry at a path (shadowing any previous binding). -/
def FS.insert (fs : FS) (p : FPath) (e : Entry) : FS :=
  ⟨(p, e) :: fs.entries⟩

/-- Model of `fs::exists`. -/
def FS.exists_ (fs : FS) (p : FPath) : Bool :=
  (fs.lookup p).isSome

/-- Model of `fs::is_directory`. -/
def FS.isDir (fs : FS) (p : FPath) : Bool :=
  match fs.lookup p with
  | some Entry.dir => true
  | _ => false

/-- The parent directory of `p` is available for creating a child there: `p`
is non-empty, and it is a top-level name (the root always exists) or its
parent is a directory.  `clonefile` and `mkdir` fail when the path is empty
(the default-constructed `fs::path` of an unset positional) or when the
parent is missing or is a regular file. -/
def FS.parentOk (fs : FS) (p : FPath) : Bool :=
  !p.isEmpty && (p.dropLast.isEmpty || fs.isDir p.dropLast)

/-- Model of `path.string() + "~"`: append `~` to the final component
(the program only ever forms this from a non-empty target path). -/
def addTilde : FPath → FPath
  | [] => ["~"]
  | [c] => [c ++ "~"]
  | c :: rest => c :: addTilde rest

/-- A path whose final component ends in `~`, i.e. a possible backup path. -/
def isBackup (p : FPath) : Bool :=
  match p.getLast? with
  | some s => s.data.getLast? == some '~'
  | none => false

/-- Model of `fs::copy_file(p, p + "~", overwrite_existing)`: duplicate the
regular file at `p` to `p~`, overwriting a regular file already there.
`none` models the call reporting an error - it throws - which happens when
`p` is missing or is a directory, or when `p~` exists as a directory;
nothing is written in that case.  (The copy's mtime is not observable by
any property under study, so it keeps the source entry's stamp.) -/
def FS.backupFile (fs : FS) (p : FPath) : Option FS :=
  match fs.lookup p with
  | some (Entry.file c m) =>
    match fs.lookup (addTilde p) with
    | some Entry.dir => none
    | _ => some (fs.insert (addTilde p) (Entry.file c m))
  | _ => none

/-- Model of `fs::last_write_time`.  Directory mtimes are not tracked: the
update-skip guard (cf.cpp line 91) checks `fs::exists`, not
`is_regular_file`, so the program can reach `is_newer` with a
directory-typed target and compare its real mtime, which this model
flattens to 0; every property proved below about the update skip is scoped
to regular-file targets, where the model is exact. -/
def FS.lastWriteTime (fs : FS) (p : FPath) : Int :=
  match fs.lookup p with
  | some (Entry.file _ m) => m
  | _ => 0

/-- Model of `is_newer` (cf.cpp lines 60-64): source strictly newer than target. -/
def is_newer (source target : FPath) (fs : FS) : Bool :=
  fs.lastWriteTime source > fs.lastWriteTime target

/-- Model of `fs::path::filename()`: the last component. -/
def filename : FPath → String
  | [] => ""
  | [c] => c
  | _ :: rest => filename rest

/-- Outcome of one `clone_file` call.  `errTargetIsDir` is the branch that
sets `errno = EEXIST` (cf.cpp line 39); `errTargetExists` is the silent
refusal at line 43; `errSys` stands for a failing `clonefile` syscall. -/
inductive CloneOutcome where
  | ok
  | errTargetIsDir
  | errTargetExists
  | errSys
deriving DecidableEq, Repr

/-- Model of `clone_file` (cf.cpp lines 31-57).  The target-exists checks
mirror lines 35-44; on a missing target the `clonefile` syscall clones a
regular file's data and attributes to a fresh target, failing when the
source is not a regular file or the target's parent is not a directory.
(The program only ever passes regular-file sources.) -/
def clone_file (source target : FPath) (fs : FS) : CloneOutcome × FS :=
  match fs.lookup target with
  | some Entry.dir => (CloneOutcome.errTargetIsDir, fs)
  | some (Entry.file _ _) => (CloneOutcome.errTargetExists, fs)
  | none =>
    match fs.lookup source with
    | some (Entry.file c m) =>
      if fs.parentOk target then (CloneOutcome.ok, fs.insert target (Entry.file c m))
      else (CloneOutcome.errSys, fs)
    | _ => (CloneOutcome.errSys, fs)

/-- The source side of the recursive walk, snapshotted as a tree: what
`fs::directory_iterator` yields, in iteration order. -/
inductive FTree where
  | file (content : String) (mtime : Int)
  | dir (children : List (String × FTree))
deriving Repr

/-- `clone_file` as called from `copy_directory` (cf.cpp line 101), with the
source entry's data taken from the traversal snapshot.  The decision
structure is identical to `clone_file`. -/
def cloneEntry (c : String) (m : Int) (target : FPath) (fs : FS) : CloneOutcome × FS :=
  match fs.lookup target with
  | some Entry.dir => (CloneOutcome.errTargetIsDir, fs)
  | some (Entry.file _ _) => (CloneOutcome.errTargetExists, fs)
  | none =>
    if fs.parentOk target then (CloneOutcome.ok, fs.insert target (Entry.file c m))
    else (CloneOutcome.errSys, fs)

/-- Model of `copy_directory` (cf.cpp lines 67-117), processing the
snapshotted children of the source directory in iteration order against
target directory `target`.
For a subdirectory (lines 80-86): `fs::create_directory` (result ignored,
but it throws - caught at line 112, returning false - when the path is an
existing file or its parent is unavailable), then recurse, aborting on
the first failure.
For a file (lines 87-109): the update-only skip (line 91), the backup
(lines 96-99, where a failing `fs::copy_file` throws - caught at line 112,
returning false with nothing written), the clone (line 101); permission
re-application (line 108) touches only mode bits, which are outside the
model. -/
def copy_directory : List (String × FTree) → FPath → Bool → Bool → Bool → FS → Bool × FS
  | [], _, _, _, _, fs => (true, fs)
  | (name, FTree.dir ch) :: rest, target, pp, b, u, fs =>
    let tp := target ++ [name]
    match fs.lookup tp with
    | some (Entry.file _ _) => (false, fs)
    | some Entry.dir =>
      match copy_directory ch tp pp b u fs with
      | (true, fs1) => copy_directory rest target pp b u fs1
      | (false, fs1) => (false, fs1)
    | none =>
      if fs.parentOk tp then
        match copy_directory ch tp pp b u (fs.insert tp Entry.dir) with
        | (true, fs1) => copy_directory rest target pp b u fs1
        | (false, fs1) => (false, fs1)
      else (false, fs)
  | (name, FTree.file c m) :: rest, target, pp, b, u, fs =>
    let tp := target ++ [name]
    if u && fs.exists_ tp && !(decide (m > fs.lastWriteTime tp)) then
      copy_directory rest target pp b u fs
    else
      match (if b && fs.exists_ tp then fs.backupFile tp else some fs) with
      | none => (false, fs)
      | some fs1 =>
        match cloneEntry c m tp fs1 with
        | (CloneOutcome.ok, fs2) => copy_directory rest target pp b u fs2
        | (_, fs2) => (false, fs2)

/-- The resolved flag set handed to the engine (cf.cpp lines 141-147). -/
structure Config where
  backup : Bool
  force : Bool
  interactive : Bool
  recursive : Bool
  preserve_permissions : Bool
  update : Bool
deriving DecidableEq, Repr

/-- The one diagnostic line a run ends with. -/
inductive Msg where
  | usage
  | sourceMissing
  | fileExists
  | useRecursive
  | cloneError
  | copyError
  | skip
  | success
  | abortException
deriving DecidableEq, Repr

/-- Result of a run: process exit code, final diagnostic, final filesystem. -/
structure RunResult where
  exit : Nat
  msg : Msg
  fs : FS
deriving DecidableEq, Repr

/-- The tail of `main`'s single-file branch (cf.cpp lines 278-291): attempt
the clone and report; permission preservation (lines 283-286) only touches
mode bits, outside the model. -/
def finishClone (source target_path : FPath) (fs : FS) : RunResult :=
  match clone_file source target_path fs with
  | (CloneOutcome.ok, fs1) => ⟨0, Msg.success, fs1⟩
  | (_, fs1) => ⟨1, Msg.cloneError, fs1⟩

/-- Model of `main`'s dispatch on the source's type (cf.cpp lines 237-291).
`srcChildren` is the directory-iterator snapshot used if the recursive
branch runs.  The single-file branch redirects into an existing target
directory (line 255), then applies the conflict block (lines 261-276):
prompt only when the target path exists and force is off, backup (a failing
`fs::copy_file` here is uncaught, terminating the process abnormally),
clone. -/
def dispatch (cfg : Config) (source target : FPath) (srcChildren : List (String × FTree))
    (stdin : Char) (fs : FS) : RunResult :=
  if fs.isDir source then
    if cfg.recursive then
      match copy_directory srcChildren target cfg.preserve_permissions cfg.backup cfg.update fs with
      | (true, fs1) => ⟨0, Msg.success, fs1⟩
      | (false, fs1) => ⟨1, Msg.copyError, fs1⟩
    else ⟨1, Msg.useRecursive, fs⟩
  else
    let target_path := if fs.isDir target then target ++ [filename source] else target
    if fs.exists_ target_path && !cfg.force then
      if cfg.interactive && !(stdin == 'y' || stdin == 'Y') then ⟨0, Msg.skip, fs⟩
      else
        match (if cfg.backup then fs.backupFile target_path else some fs) with
        | none => ⟨134, Msg.abortException, fs⟩
        | some fs1 => finishClone source target_path fs1
    else finishClone source target_path fs

/-- Model of `main` after flag parsing (cf.cpp lines 196-291).  `stdin` is
the single character a prompt would read (at most one prompt can fire in a
run).  Order of checks follows the code: source existence (line 198); the
target pre-check block (lines 205-235) - for an existing file target the
interactive prompt, the backup (uncaught `fs::copy_file` failure terminates
the process abnormally, modelled with exit 134), the no-force failure; for
a missing target the directory creation when the source is a directory
(line 233, where an empty target path or an unavailable parent makes
`fs::create_directory` throw out of `main`, terminating the process
abnormally); then the dispatch on the source type. -/
def mainRun (cfg : Config) (source target : FPath) (srcChildren : List (String × FTree))
    (stdin : Char) (fs0 : FS) : RunResult :=
  match fs0.lookup source with
  | none => ⟨1, Msg.sourceMissing, fs0⟩
  | some _ =>
    match fs0.lookup target with
    | some (Entry.file _ _) =>
      if cfg.interactive && !(stdin == 'y' || stdin == 'Y') then ⟨0, Msg.skip, fs0⟩
      else
        match (if cfg.backup then fs0.backupFile target else some fs0) with
        | none => ⟨134, Msg.abortException, fs0⟩
        | some fs1 =>
          if !cfg.force && fs1.exists_ target then ⟨1, Msg.fileExists, fs1⟩
          else dispatch cfg source target srcChildren stdin fs1
    | some Entry.dir => dispatch cfg source target srcChildren stdin fs0
    | none =>
      if fs0.isDir source then
        if fs0.parentOk target then
          dispatch cfg source target srcChildren stdin (fs0.insert target Entry.dir)
        else ⟨134, Msg.abortException, fs0⟩
      else dispatch cfg source target srcChildren stdin fs0

/-- The flag tokens `main`'s argument loop recognises (cf.cpp lines 152-179). -/
def isFlag (a : String) : Bool :=
  a == "-a" || a == "-b" || a == "-f" || a == "-i" || a == "-R" || a == "-r" ||
    a == "-p" || a == "-u" || a == "-d"

/-- Effect of one flag on the configuration (cf.cpp lines 154-179; `-d`
only toggles debug output, which is outside the model). -/
def applyFlag (cfg : Config) (a : String) : Config :=
  if a == "-a" then { cfg with recursive := true, preserve_permissions := true }
  else if a == "-b" then { cfg with backup := true }
  else if a == "-f" then { cfg with force := true }
  else if a == "-i" then { cfg with interactive := true }
  else if a == "-R" || a == "-r" then { cfg with recursive := true }
  else if a == "-p" then { cfg with preserve_permissions := true }
  else if a == "-u" then { cfg with update := true }
  else cfg

/-- Model of `main`'s argument loop (cf.cpp lines 150-194): flags update the
configuration; the first two non-flag tokens become source and target (a
positional is a one-component path); a third non-flag token is the
"Unexpected argument" error (`none`), which prints the usage text and exits
1.  An unset positional is left as the empty path, like the
default-constructed `fs::path`. -/
def parseArgs : List String → Config → Option String → Option String →
    Option (Config × FPath × FPath)
  | [], cfg, s, t =>
    some (cfg, (s.map fun x => [x]).getD [], (t.map fun x => [x]).getD [])
  | a :: rest, cfg, s, t =>
    if isFlag a then parseArgs rest (applyFlag cfg a) s t
    else
      match s, t with
      | none, _ => parseArgs rest cfg (some a) t
      | some _, none => parseArgs rest cfg s (some a)
      | some _, some _ => none

/-- All flags start out false (cf.cpp lines 141-147). -/
def defaultConfig : Config :=
  { backup := false, force := false, interactive := false, recursive := false,
    preserve_permissions := false, update := false }

/-- Model of `main` from argv on (cf.cpp lines 134-291).  `args` is
`argv[1..]`, so the `argc < 3` usage check (line 136) is `args.length < 2` -
it counts flags and positionals alike. -/
def cmain (args : List String) (srcChildren : List (String × FTree)) (stdin : Char)
    (fs : FS) : RunResult :=
  if args.length < 2 then ⟨1, Msg.usage, fs⟩
  else
    match parseArgs args defaultConfig none none with
    | none => ⟨1, Msg.usage, fs⟩
    | some (cfg, source, target) => mainRun cfg source target srcChildren stdin fs


/-! ### Concrete fixtures used by witnesses and counterexamples -/

def cfgC1 : Config :=
  { backup := true, force := true, interactive := false, recursive := false,
    preserve_permissions := false, update := false }

def fsC1 : FS := ⟨[(["a"], Entry.file "new" 1), (["b"], Entry.file "old" 0)]⟩

def cfgC2 : Config :=
  { backup := false, force := true, interactive := true, recursive := true,
    preserve_permissions := false, update := false }

def fsC2 : FS :=
  ⟨[(["s"], Entry.dir), (["s", "x"], Entry.file "new" 5), (["t"], Entry.dir),
    (["t", "x"], Entry.file "old" 0)]⟩

def chC2 : List (String × FTree) := [("x", FTree.file "new" 5)]

def fsC2b : FS :=
  ⟨[(["s"], Entry.dir), (["s", "x"], Entry.file "new" 5), (["t"], Entry.dir),
    (["t", "x"], Entry.file "old" 0), (["t", "x~"], Entry.dir)]⟩

def fsC3 : FS := ⟨[(["s"], Entry.dir), (["t"], Entry.dir)]⟩

def chC3 : List (String × FTree) :=
  [("d", FTree.dir [("y", FTree.file "yy" 2)]), ("x", FTree.file "xx" 1)]

def cfgC4 : Config :=
  { backup := true, force := false, interactive := false, recursive := false,
    preserve_permissions := false, update := false }

def fsC4 : FS := ⟨[(["a"], Entry.file "new" 1), (["b"], Entry.file "old" 0)]⟩

def cfgC5 : Config :=
  { backup := false, force := true, interactive := true, recursive := false,
    preserve_permissions := false, update := false }

def fsC5 : FS :=
  ⟨[(["a"], Entry.file "new" 5), (["d"], Entry.dir), (["d", "a"], Entry.file "old" 0)]⟩

def cfgC5b : Config :=
  { backup := true, force := false, interactive := true, recursive := false,
    preserve_permissions := false, update := false }

def fsC6 : FS :=
  ⟨[(["t"], Entry.dir), (["t", "x"], Entry.file "oldx" 0),
    (["t", "x~"], Entry.file "oldy" 99)]⟩

def chC6 : List (String × FTree) :=
  [("x", FTree.file "sx" 10), ("x~", FTree.file "sy" 10)]

def fsC6w : FS := ⟨[(["t"], Entry.dir), (["t", "y"], Entry.file "old" 7)]⟩

def fsC7 : FS :=
  ⟨[(["a"], Entry.file "x" 0), (["b"], Entry.file "y" 0), (["d"], Entry.dir)]⟩

def fsC8 : FS := ⟨[(["s"], Entry.dir), (["s", "x"], Entry.file "new" 5)]⟩

def fsC8w : FS := ⟨[(["s"], Entry.dir), (["t"], Entry.dir)]⟩

def cfgC10 : Config :=
  { backup := true, force := true, interactive := false, recursive := false,
    preserve_permissions := false, update := false }

def fsC10 : FS := ⟨[(["a"], Entry.file "x" 1), (["b"], Entry.file "y" 2)]⟩

/-! ### Basic lemmas about the filesystem model -/

theorem FS.lookup_insert_self (fs : FS) (p : FPath) (e : Entry) :
    (fs.insert p e).lookup p = some e := by
  simp [FS.insert, FS.lookup, lookupEntries]

theorem FS.lookup_insert_ne (fs : FS) (p q : FPath) (e : Entry) (h : ¬ p = q) :
    (fs.insert p e).lookup q = fs.lookup q := by
  simp [FS.insert, FS.lookup, lookupEntries, if_neg h]

theorem append_tilde_ne (s : String) : ¬ s ++ "~" = s := by
  intro h
  have hl := congrArg String.length h
  have h1 : ("~" : String).length = 1 := rfl
  rw [String.length_append, h1] at hl
  omega

theorem addTilde_ne (p : FPath) : ¬ addTilde p = p := by
  induction p with
  | nil => simp [addTilde]
  | cons a q ih =>
    cases q with
    | nil =>
      intro h
      rw [addTilde] at h
      injection h with h1 h2
      exact append_tilde_ne a h1
    | cons b r =>
      intro h
      rw [show addTilde (a :: b :: r) = a :: addTilde (b :: r) from rfl] at h
      injection h with h1 h2
      exact ih h2

theorem addTilde_ne_nil (p : FPath) : ¬ addTilde p = [] := by
  match p with
  | [] => simp [addTilde]
  | [c] => simp [addTilde]
  | a :: b :: r => simp [addTilde]

theorem isBackup_cons (a : String) (q : FPath) (h : ¬ q = []) :
    isBackup (a :: q) = isBackup q := by
  match q, h with
  | b :: r, _ => simp [isBackup, List.getLast?_cons_cons]

theorem isBackup_addTilde (p : FPath) : isBackup (addTilde p) = true := by
  induction p with
  | nil => decide
  | cons a q ih =>
    cases q with
    | nil =>
      simp only [addTilde, isBackup, List.getLast?_singleton]
      rw [String.data_append]
      simp
    | cons b r =>
      rw [show addTilde (a :: b :: r) = a :: addTilde (b :: r) from rfl,
        isBackup_cons a (addTilde (b :: r)) (addTilde_ne_nil (b :: r))]
      exact ih

theorem ne_addTilde_of_not_isBackup (p q : FPath) (h : isBackup p = false) :
    ¬ p = addTilde q := by
  intro he
  rw [he, isBackup_addTilde] at h
  cases h

theorem backupFile_some_inv {fs : FS} {tp : FPath} {fs' : FS}
    (hbk : fs.backupFile tp = some fs') :
    ∃ c m, fs.lookup tp = some (Entry.file c m) ∧
      fs' = fs.insert (addTilde tp) (Entry.file c m) := by
  unfold FS.backupFile at hbk
  match he : fs.lookup tp with
  | some (Entry.file c m) =>
    rw [he] at hbk
    match he2 : fs.lookup (addTilde tp) with
    | some Entry.dir => rw [he2] at hbk; cases hbk
    | some (Entry.file c' m') =>
      rw [he2] at hbk
      injection hbk with hbk1
      exact ⟨c, m, rfl, hbk1.symm⟩
    | none =>
      rw [he2] at hbk
      injection hbk with hbk1
      exact ⟨c, m, rfl, hbk1.symm⟩
  | some Entry.dir => rw [he] at hbk; cases hbk
  | none => rw [he] at hbk; cases hbk

theorem FS.lookup_backupFile (fs : FS) (tp p : FPath) (e : Entry) (fs' : FS)
    (hbk : fs.backupFile tp = some fs')
    (hp : fs.lookup p = some e) (h : isBackup p = false) :
    fs'.lookup p = some e := by
  obtain ⟨c, m, _, hfs'⟩ := backupFile_some_inv hbk
  rw [hfs']
  rw [FS.lookup_insert_ne]
  · exact hp
  · intro he
    exact ne_addTilde_of_not_isBackup p tp h he.symm

theorem FS.lookup_backupFile_of_ne (fs : FS) (tp p : FPath) (fs' : FS)
    (hbk : fs.backupFile tp = some fs')
    (h : ¬ p = addTilde tp) : fs'.lookup p = fs.lookup p := by
  obtain ⟨c, m, _, hfs'⟩ := backupFile_some_inv hbk
  rw [hfs']
  rw [FS.lookup_insert_ne]
  intro he
  exact h he.symm

/-- Extension order on filesystems: every binding of the first is intact
in the second. -/
def FSExt (fs1 fs2 : FS) : Prop :=
  ∀ p e, fs1.lookup p = some e → fs2.lookup p = some e

theorem fsext_rfl (fs : FS) : FSExt fs fs := fun _ _ h => h

theorem fsext_trans {fs1 fs2 fs3 : FS} (h1 : FSExt fs1 fs2) (h2 : FSExt fs2 fs3) :
    FSExt fs1 fs3 := fun p e h => h2 p e (h1 p e h)

theorem fsext_insert (fs : FS) (p : FPath) (e : Entry) (h : fs.lookup p = none) :
    FSExt fs (fs.insert p e) := by
  intro q e' hq
  rcases eq_or_ne p q with rfl | hne
  · rw [h] at hq; cases hq
  · rw [FS.lookup_insert_ne fs p q e hne]; exact hq

theorem isDir_of_fsext {fs1 fs2 : FS} (h : FSExt fs1 fs2) (p : FPath)
    (hd : fs1.isDir p = true) : fs2.isDir p = true := by
  unfold FS.isDir at *
  match he : fs1.lookup p with
  | some Entry.dir => rw [h p Entry.dir he]
  | some (Entry.file c m) => rw [he] at hd; cases hd
  | none => rw [he] at hd; cases hd

theorem cloneEntry_ext {c : String} {m : Int} {tp : FPath} {fs : FS} {o : CloneOutcome}
    {fs' : FS} (h : cloneEntry c m tp fs = (o, fs')) : FSExt fs fs' := by
  unfold cloneEntry at h
  match he : fs.lookup tp with
  | some Entry.dir => rw [he] at h; cases h; exact fsext_rfl fs
  | some (Entry.file c' m') => rw [he] at h; cases h; exact fsext_rfl fs
  | none =>
    rw [he] at h
    by_cases hp : fs.parentOk tp = true
    · rw [if_pos hp] at h; cases h; exact fsext_insert fs tp _ he
    · rw [if_neg hp] at h; cases h; exact fsext_rfl fs

theorem clone_file_ext {source tp : FPath} {fs : FS} {o : CloneOutcome}
    {fs' : FS} (h : clone_file source tp fs = (o, fs')) : FSExt fs fs' := by
  unfold clone_file at h
  match he : fs.lookup tp with
  | some Entry.dir => rw [he] at h; cases h; exact fsext_rfl fs
  | some (Entry.file c' m') => rw [he] at h; cases h; exact fsext_rfl fs
  | none =>
    rw [he] at h
    match hs : fs.lookup source with
    | some (Entry.file c m) =>
      simp only [hs] at h
      by_cases hp : fs.parentOk tp = true
      · rw [if_pos hp] at h; cases h; exact fsext_insert fs tp _ he
      · rw [if_neg hp] at h; cases h; exact fsext_rfl fs
    | some Entry.dir => simp only [hs] at h; cases h; exact fsext_rfl fs
    | none => simp only [hs] at h; cases h; exact fsext_rfl fs

theorem copy_directory_preserves (ch : List (String × FTree)) (tgt : FPath)
    (pp b u : Bool) (fs : FS) :
    ∀ p e, fs.lookup p = some e → (b = false ∨ isBackup p = false) →
    ((copy_directory ch tgt pp b u fs).2).lookup p = some e := by
  induction ch, tgt, pp, b, u, fs using copy_directory.induct with
  | case1 tgt pp b u fs =>
    intro p e hp _
    simpa [copy_directory] using hp
  | case2 name ch rest target pp b u fs tp content mtime hlk =>
    intro p e hp _
    have htp : tp = target ++ [name] := rfl
    simp only [copy_directory]
    rw [← htp]
    simpa [hlk] using hp
  | case3 name ch rest target pp b u fs tp hlk fs1 heq ih1 ih2 =>
    intro p e hp hc
    have htp : tp = target ++ [name] := rfl
    have h1 : fs1.lookup p = some e := by
      have h := ih1 p e hp hc
      rwa [heq] at h
    simp only [copy_directory]
    rw [← htp]
    simpa [hlk, heq] using ih2 p e h1 hc
  | case4 name ch rest target pp b u fs tp hlk fs1 heq ih1 =>
    intro p e hp hc
    have htp : tp = target ++ [name] := rfl
    have h1 : fs1.lookup p = some e := by
      have h := ih1 p e hp hc
      rwa [heq] at h
    simp only [copy_directory]
    rw [← htp]
    simpa [hlk, heq] using h1
  | case5 name ch rest target pp b u fs tp hlk hpok fs1 heq ih1 ih2 =>
    intro p e hp hc
    have htp : tp = target ++ [name] := rfl
    have hne : ¬ tp = p := by
      intro h
      rw [h, hp] at hlk
      cases hlk
    have h0 : (fs.insert tp Entry.dir).lookup p = some e := by
      rw [FS.lookup_insert_ne fs _ p _ hne]
      exact hp
    have h1 : fs1.lookup p = some e := by
      have h := ih1 p e h0 hc
      rwa [heq] at h
    simp only [copy_directory]
    rw [← htp]
    simpa [hlk, hpok, heq] using ih2 p e h1 hc
  | case6 name ch rest target pp b u fs tp hlk hpok fs1 heq ih1 =>
    intro p e hp hc
    have htp : tp = target ++ [name] := rfl
    have hne : ¬ tp = p := by
      intro h
      rw [h, hp] at hlk
      cases hlk
    have h0 : (fs.insert tp Entry.dir).lookup p = some e := by
      rw [FS.lookup_insert_ne fs _ p _ hne]
      exact hp
    have h1 : fs1.lookup p = some e := by
      have h := ih1 p e h0 hc
      rwa [heq] at h
    simp only [copy_directory]
    rw [← htp]
    simpa [hlk, hpok, heq] using h1
  | case7 name ch rest target pp b u fs tp hlk hpok =>
    intro p e hp _
    have htp : tp = target ++ [name] := rfl
    simp only [copy_directory]
    rw [← htp]
    simpa [hlk, hpok] using hp
  | case8 name c m rest target pp b u fs tp hcond ih =>
    intro p e hp hc
    have htp : tp = target ++ [name] := rfl
    simp only [copy_directory]
    rw [← htp]
    simpa [hcond] using ih p e hp hc
  | case9 name c m rest target pp b u fs tp hncond hbnone =>
    intro p e hp hc
    have htp : tp = target ++ [name] := rfl
    have hite : (if (b && fs.exists_ tp) = true then fs.backupFile tp else some fs) =
        none := hbnone
    simp only [copy_directory]
    rw [← htp, if_neg hncond]
    simp only [hite]
    exact hp
  | case10 name c m rest target pp b u fs tp hncond fs1 hbs fs2 hclone ih =>
    intro p e hp hc
    have htp : tp = target ++ [name] := rfl
    have hite : (if (b && fs.exists_ tp) = true then fs.backupFile tp else some fs) =
        some fs1 := hbs
    have hfs1 : fs1.lookup p = some e := by
      by_cases hb : (b && fs.exists_ tp) = true
      · rw [if_pos hb] at hite
        rcases hc with hbf | hib
        · rw [hbf] at hb
          simp at hb
        · exact FS.lookup_backupFile fs tp p e fs1 hite hp hib
      · rw [if_neg hb] at hite
        injection hite with h1
        rw [← h1]
        exact hp
    have h2 : fs2.lookup p = some e := cloneEntry_ext hclone p e hfs1
    simp only [copy_directory]
    rw [← htp, if_neg hncond]
    simp only [hite, hclone]
    exact ih p e h2 hc
  | case11 name c m rest target pp b u fs tp hncond fs1 hbs o fs2 hno hclone =>
    intro p e hp hc
    have htp : tp = target ++ [name] := rfl
    have hite : (if (b && fs.exists_ tp) = true then fs.backupFile tp else some fs) =
        some fs1 := hbs
    have hfs1 : fs1.lookup p = some e := by
      by_cases hb : (b && fs.exists_ tp) = true
      · rw [if_pos hb] at hite
        rcases hc with hbf | hib
        · rw [hbf] at hb
          simp at hb
        · exact FS.lookup_backupFile fs tp p e fs1 hite hp hib
      · rw [if_neg hb] at hite
        injection hite with h1
        rw [← h1]
        exact hp
    have h2 : fs2.lookup p = some e := cloneEntry_ext hclone p e hfs1
    simp only [copy_directory]
    rw [← htp, if_neg hncond]
    simp only [hite]
    cases o with
    | ok => exact absurd rfl hno
    | errTargetIsDir =>
      simp only [hclone]
      exact h2
    | errTargetExists =>
      simp only [hclone]
      exact h2
    | errSys =>
      simp only [hclone]
      exact h2

/-- With backup off, a run of the tree walker preserves every existing binding. -/
theorem copy_directory_fsext (ch : List (String × FTree)) (tgt : FPath) (pp u : Bool)
    (fs : FS) : FSExt fs ((copy_directory ch tgt pp false u fs).2) :=
  fun p e hp => copy_directory_preserves ch tgt pp false u fs p e hp (Or.inl rfl)

theorem copy_directory_nil (target : FPath) (pp b u : Bool) (fs : FS) :
    copy_directory [] target pp b u fs = (true, fs) := by
  simp [copy_directory]

theorem copy_directory_dir_step (name : String) (ch rest : List (String × FTree))
    (target : FPath) (pp b u : Bool) (fs : FS) :
    copy_directory ((name, FTree.dir ch) :: rest) target pp b u fs =
      match fs.lookup (target ++ [name]) with
      | some (Entry.file _ _) => (false, fs)
      | some Entry.dir =>
        match copy_directory ch (target ++ [name]) pp b u fs with
        | (true, fs1) => copy_directory rest target pp b u fs1
        | (false, fs1) => (false, fs1)
      | none =>
        if fs.parentOk (target ++ [name]) then
          match copy_directory ch (target ++ [name]) pp b u
              (fs.insert (target ++ [name]) Entry.dir) with
          | (true, fs1) => copy_directory rest target pp b u fs1
          | (false, fs1) => (false, fs1)
        else (false, fs) := by
  simp only [copy_directory]

theorem copy_directory_file_step (name c : String) (m : Int)
    (rest : List (String × FTree)) (target : FPath) (pp : Bool) (fs : FS) :
    copy_directory ((name, FTree.file c m) :: rest) target pp false false fs =
      match cloneEntry c m (target ++ [name]) fs with
      | (CloneOutcome.ok, fs2) => copy_directory rest target pp false false fs2
      | (_, fs2) => (false, fs2) := by
  simp [copy_directory]

theorem cloneEntry_ok_inv {c : String} {m : Int} {tp : FPath} {fs fs2 : FS}
    (h : cloneEntry c m tp fs = (CloneOutcome.ok, fs2)) :
    fs.lookup tp = none ∧ fs.parentOk tp = true ∧ fs2 = fs.insert tp (Entry.file c m) := by
  unfold cloneEntry at h
  match he : fs.lookup tp with
  | some Entry.dir => rw [he] at h; simp at h
  | some (Entry.file c' m') => rw [he] at h; simp at h
  | none =>
    rw [he] at h
    by_cases hp : fs.parentOk tp = true
    · rw [if_pos hp] at h
      injection h with h1 h2
      exact ⟨rfl, hp, h2.symm⟩
    · rw [if_neg hp] at h
      simp at h

theorem cloneEntry_dir_fail {c : String} {m : Int} {tp : FPath} {fs : FS}
    (he : fs.lookup tp = some Entry.dir) :
    cloneEntry c m tp fs = (CloneOutcome.errTargetIsDir, fs) := by
  simp [cloneEntry, he]

theorem cloneEntry_file_fail {c : String} {m : Int} {tp : FPath} {fs : FS}
    {c' : String} {m' : Int} (he : fs.lookup tp = some (Entry.file c' m')) :
    cloneEntry c m tp fs = (CloneOutcome.errTargetExists, fs) := by
  simp [cloneEntry, he]

/-- Re-running the tree walker (backup and update off) on any extension of
its own final state writes nothing, and can only succeed if the first run
did. -/
theorem copy_directory_rerun :
    ∀ (ch : List (String × FTree)) (tgt : FPath) (pp b u : Bool) (fs : FS),
    b = false → u = false →
    ∀ br fs₁, copy_directory ch tgt pp b u fs = (br, fs₁) →
    (tgt = [] ∨ fs.isDir tgt = true) →
    ∀ fs₂, FSExt fs₁ fs₂ →
    ∃ b', copy_directory ch tgt pp b u fs₂ = (b', fs₂) ∧ (b' = true → br = true) := by
  intro ch tgt pp b u fs
  induction ch, tgt, pp, b, u, fs using copy_directory.induct with
  | case1 tgt pp b u fs =>
    intro hb hu br fs₁ hrun hyp fs₂ hext
    rw [copy_directory_nil] at hrun
    injection hrun with h1 h2
    exact ⟨true, copy_directory_nil tgt pp b u fs₂, fun _ => h1.symm⟩
  | case2 name ch rest target pp b u fs tp content mtime hlk =>
    intro hb hu br fs₁ hrun hyp fs₂ hext
    have htp : tp = target ++ [name] := rfl
    rw [copy_directory_dir_step, ← htp] at hrun
    simp only [hlk] at hrun
    injection hrun with h1 h2
    subst h2
    have hlk2 : fs₂.lookup tp = some (Entry.file content mtime) := hext tp _ hlk
    refine ⟨false, ?_, fun h => nomatch h⟩
    rw [copy_directory_dir_step, ← htp]
    simp only [hlk2]
  | case3 name ch rest target pp b u fs tp hlk fs1 heq ih1 ih2 =>
    intro hb hu br fs₁ hrun hyp fs₂ hext
    subst hb; subst hu
    have htp : tp = target ++ [name] := rfl
    rw [copy_directory_dir_step, ← htp] at hrun
    simp only [hlk, heq] at hrun
    have hext_fs_fs1 : FSExt fs fs1 := by
      have h := copy_directory_fsext ch tp pp false fs
      rwa [heq] at h
    have hext_fs1_fs₁ : FSExt fs1 fs₁ := by
      have h := copy_directory_fsext rest target pp false fs1
      rwa [hrun] at h
    have hext_fs_fs₂ : FSExt fs fs₂ :=
      fsext_trans hext_fs_fs1 (fsext_trans hext_fs1_fs₁ hext)
    have hlk2 : fs₂.lookup tp = some Entry.dir := hext_fs_fs₂ tp _ hlk
    have hdirtp : fs.isDir tp = true := by
      simp [FS.isDir, hlk]
    have hyp1 : target = [] ∨ fs1.isDir target = true :=
      hyp.imp (fun h => h) (fun h => isDir_of_fsext hext_fs_fs1 target h)
    obtain ⟨bc', hch2, hchimp⟩ :=
      ih1 rfl rfl true fs1 heq (Or.inr hdirtp) fs₂ (fsext_trans hext_fs1_fs₁ hext)
    obtain ⟨br', hrest2, hrestimp⟩ := ih2 rfl rfl br fs₁ hrun hyp1 fs₂ hext
    cases bc' with
    | true =>
      refine ⟨br', ?_, hrestimp⟩
      rw [copy_directory_dir_step, ← htp]
      simp only [hlk2, hch2, hrest2]
    | false =>
      refine ⟨false, ?_, fun h => nomatch h⟩
      rw [copy_directory_dir_step, ← htp]
      simp only [hlk2, hch2]
  | case4 name ch rest target pp b u fs tp hlk fs1 heq ih1 =>
    intro hb hu br fs₁ hrun hyp fs₂ hext
    subst hb; subst hu
    have htp : tp = target ++ [name] := rfl
    rw [copy_directory_dir_step, ← htp] at hrun
    simp only [hlk, heq] at hrun
    injection hrun with h1 h2
    subst h2
    have hext_fs_fs1 : FSExt fs fs1 := by
      have h := copy_directory_fsext ch tp pp false fs
      rwa [heq] at h
    have hlk2 : fs₂.lookup tp = some Entry.dir :=
      hext tp _ (hext_fs_fs1 tp _ hlk)
    have hdirtp : fs.isDir tp = true := by
      simp [FS.isDir, hlk]
    obtain ⟨bc', hch2, hchimp⟩ := ih1 rfl rfl false fs1 heq (Or.inr hdirtp) fs₂ hext
    cases bc' with
    | true => exact absurd (hchimp rfl) (fun h => nomatch h)
    | false =>
      refine ⟨false, ?_, fun h => nomatch h⟩
      rw [copy_directory_dir_step, ← htp]
      simp only [hlk2, hch2]
  | case5 name ch rest target pp b u fs tp hlk hpok fs1 heq ih1 ih2 =>
    intro hb hu br fs₁ hrun hyp fs₂ hext
    subst hb; subst hu
    have htp : tp = target ++ [name] := rfl
    rw [copy_directory_dir_step, ← htp] at hrun
    simp only [hlk, hpok, if_true] at hrun
    simp only [heq] at hrun
    have hextI : FSExt fs (fs.insert tp Entry.dir) := fsext_insert fs tp Entry.dir hlk
    have hlkI : (fs.insert tp Entry.dir).lookup tp = some Entry.dir :=
      FS.lookup_insert_self fs tp Entry.dir
    have hext_I_fs1 : FSExt (fs.insert tp Entry.dir) fs1 := by
      have h := copy_directory_fsext ch tp pp false (fs.insert tp Entry.dir)
      rwa [heq] at h
    have hext_fs1_fs₁ : FSExt fs1 fs₁ := by
      have h := copy_directory_fsext rest target pp false fs1
      rwa [hrun] at h
    have hlk2 : fs₂.lookup tp = some Entry.dir :=
      hext tp _ (hext_fs1_fs₁ tp _ (hext_I_fs1 tp _ hlkI))
    have hdirtpI : (fs.insert tp Entry.dir).isDir tp = true := by
      simp [FS.isDir, hlkI]
    have hyp1 : target = [] ∨ fs1.isDir target = true :=
      hyp.imp (fun h => h)
        (fun h => isDir_of_fsext (fsext_trans hextI hext_I_fs1) target h)
    obtain ⟨bc', hch2, hchimp⟩ :=
      ih1 rfl rfl true fs1 heq (Or.inr hdirtpI) fs₂ (fsext_trans hext_fs1_fs₁ hext)
    obtain ⟨br', hrest2, hrestimp⟩ := ih2 rfl rfl br fs₁ hrun hyp1 fs₂ hext
    cases bc' with
    | true =>
      refine ⟨br', ?_, hrestimp⟩
      rw [copy_directory_dir_step, ← htp]
      simp only [hlk2, hch2, hrest2]
    | false =>
      refine ⟨false, ?_, fun h => nomatch h⟩
      rw [copy_directory_dir_step, ← htp]
      simp only [hlk2, hch2]
  | case6 name ch rest target pp b u fs tp hlk hpok fs1 heq ih1 =>
    intro hb hu br fs₁ hrun hyp fs₂ hext
    subst hb; subst hu
    have htp : tp = target ++ [name] := rfl
    rw [copy_directory_dir_step, ← htp] at hrun
    simp only [hlk, hpok, if_true] at hrun
    simp only [heq] at hrun
    injection hrun with h1 h2
    subst h2
    have hlkI : (fs.insert tp Entry.dir).lookup tp = some Entry.dir :=
      FS.lookup_insert_self fs tp Entry.dir
    have hext_I_fs1 : FSExt (fs.insert tp Entry.dir) fs1 := by
      have h := copy_directory_fsext ch tp pp false (fs.insert tp Entry.dir)
      rwa [heq] at h
    have hlk2 : fs₂.lookup tp = some Entry.dir := hext tp _ (hext_I_fs1 tp _ hlkI)
    have hdirtpI : (fs.insert tp Entry.dir).isDir tp = true := by
      simp [FS.isDir, hlkI]
    obtain ⟨bc', hch2, hchimp⟩ := ih1 rfl rfl false fs1 heq (Or.inr hdirtpI) fs₂ hext
    cases bc' with
    | true => exact absurd (hchimp rfl) (fun h => nomatch h)
    | false =>
      refine ⟨false, ?_, fun h => nomatch h⟩
      rw [copy_directory_dir_step, ← htp]
      simp only [hlk2, hch2]
  | case7 name ch rest target pp b u fs tp hlk hpok =>
    intro hb hu br fs₁ hrun hyp fs₂ hext
    exfalso
    apply hpok
    have htp : tp = target ++ [name] := rfl
    have hdl : tp.dropLast = target := by
      rw [htp]
      exact List.dropLast_concat
    have hne : tp.isEmpty = false := by
      rw [htp]
      cases target <;> rfl
    unfold FS.parentOk
    rw [hne, hdl]
    rcases hyp with h | h
    · rw [h]
      rfl
    · rw [h]
      simp
  | case8 name c m rest target pp b u fs tp hcond ih =>
    intro hb hu br fs₁ hrun hyp fs₂ hext
    subst hb; subst hu
    simp at hcond
  | case9 name c m rest target pp b u fs tp hncond hbnone =>
    intro hb hu br fs₁ hrun hyp fs₂ hext
    subst hb; subst hu
    simp at hbnone
  | case10 name c m rest target pp b u fs tp hncond fs1 hbs fs2 hclone ih =>
    intro hb hu br fs₁ hrun hyp fs₂ hext
    subst hb; subst hu
    have htp : tp = target ++ [name] := rfl
    have hfsv : fs1 = fs := by
      have hite : (if (false && fs.exists_ tp) = true then fs.backupFile tp
          else some fs) = some fs1 := hbs
      rw [if_neg (by simp)] at hite
      injection hite with h1
      exact h1.symm
    rw [hfsv] at hclone
    obtain ⟨hnone, hpok, hfs2⟩ := cloneEntry_ok_inv hclone
    rw [copy_directory_file_step, ← htp] at hrun
    simp only [hclone] at hrun
    have hlkfs2 : fs2.lookup tp = some (Entry.file c m) := by
      rw [hfs2]
      exact FS.lookup_insert_self fs tp _
    have hext_fs2_fs₁ : FSExt fs2 fs₁ := by
      have h := copy_directory_fsext rest target pp false fs2
      rwa [hrun] at h
    have hlk2 : fs₂.lookup tp = some (Entry.file c m) :=
      hext tp _ (hext_fs2_fs₁ tp _ hlkfs2)
    refine ⟨false, ?_, fun h => nomatch h⟩
    rw [copy_directory_file_step, ← htp]
    simp only [cloneEntry_file_fail hlk2]
  | case11 name c m rest target pp b u fs tp hncond fs1 hbs o fs2 hno hclone =>
    intro hb hu br fs₁ hrun hyp fs₂ hext
    subst hb; subst hu
    have htp : tp = target ++ [name] := rfl
    have hfsv : fs1 = fs := by
      have hite : (if (false && fs.exists_ tp) = true then fs.backupFile tp
          else some fs) = some fs1 := hbs
      rw [if_neg (by simp)] at hite
      injection hite with h1
      exact h1.symm
    rw [hfsv] at hclone
    rw [copy_directory_file_step, ← htp] at hrun
    cases o with
    | ok => exact absurd rfl hno
    | errTargetIsDir =>
      simp only [hclone] at hrun
      injection hrun with h1 h2
      have he : fs.lookup tp = some Entry.dir := by
        unfold cloneEntry at hclone
        match he2 : fs.lookup tp with
        | some Entry.dir => rfl
        | some (Entry.file c' m') => rw [he2] at hclone; simp at hclone
        | none =>
          rw [he2] at hclone
          by_cases hp : fs.parentOk tp = true
          · rw [if_pos hp] at hclone; simp at hclone
          · rw [if_neg hp] at hclone; simp at hclone
      have hfs2fs : fs2 = fs := by
        rw [cloneEntry_dir_fail he] at hclone
        injection hclone with ha hb2
        exact hb2.symm
      have hfs₁ : fs₁ = fs := by
        rw [← h2, hfs2fs]
      have hlk2 : fs₂.lookup tp = some Entry.dir := by
        refine hext tp _ ?_
        rw [hfs₁]
        exact he
      refine ⟨false, ?_, fun h => nomatch h⟩
      rw [copy_directory_file_step, ← htp]
      simp only [cloneEntry_dir_fail hlk2]
    | errTargetExists =>
      simp only [hclone] at hrun
      injection hrun with h1 h2
      have he : ∃ c' m', fs.lookup tp = some (Entry.file c' m') := by
        unfold cloneEntry at hclone
        match he2 : fs.lookup tp with
        | some Entry.dir => rw [he2] at hclone; simp at hclone
        | some (Entry.file c' m') => exact ⟨c', m', rfl⟩
        | none =>
          rw [he2] at hclone
          by_cases hp : fs.parentOk tp = true
          · rw [if_pos hp] at hclone; simp at hclone
          · rw [if_neg hp] at hclone; simp at hclone
      obtain ⟨c', m', he⟩ := he
      have hfs2fs : fs2 = fs := by
        rw [cloneEntry_file_fail he] at hclone
        injection hclone with ha hb2
        exact hb2.symm
      have hfs₁ : fs₁ = fs := by
        rw [← h2, hfs2fs]
      have hlk2 : fs₂.lookup tp = some (Entry.file c' m') := by
        refine hext tp _ ?_
        rw [hfs₁]
        exact he
      refine ⟨false, ?_, fun h => nomatch h⟩
      rw [copy_directory_file_step, ← htp]
      simp only [cloneEntry_file_fail hlk2]
    | errSys =>
      exfalso
      unfold cloneEntry at hclone
      match he2 : fs.lookup tp with
      | some Entry.dir => rw [he2] at hclone; simp at hclone
      | some (Entry.file c' m') => rw [he2] at hclone; simp at hclone
      | none =>
        rw [he2] at hclone
        have hpok : fs.parentOk tp = true := by
          unfold FS.parentOk
          have hdl : tp.dropLast = target := by
            rw [htp]
            exact List.dropLast_concat
          have hne : tp.isEmpty = false := by
            rw [htp]
            cases target <;> rfl
          rw [hne, hdl]
          rcases hyp with h | h
          · rw [h]
            rfl
          · rw [h]
            simp
        rw [if_pos hpok] at hclone
        simp at hclone

/-! ### Unfolding lemmas for the orchestrator -/

theorem clone_file_exists_file {source tpv : FPath} {fs : FS} {c' : String} {m' : Int}
    (he : fs.lookup tpv = some (Entry.file c' m')) :
    clone_file source tpv fs = (CloneOutcome.errTargetExists, fs) := by
  unfold clone_file
  rw [he]

theorem clone_file_exists_dir {source tpv : FPath} {fs : FS}
    (he : fs.lookup tpv = some Entry.dir) :
    clone_file source tpv fs = (CloneOutcome.errTargetIsDir, fs) := by
  unfold clone_file
  rw [he]

theorem finishClone_file_exists {source tpv : FPath} {fs : FS} {c' : String} {m' : Int}
    (he : fs.lookup tpv = some (Entry.file c' m')) :
    finishClone source tpv fs = ⟨1, Msg.cloneError, fs⟩ := by
  unfold finishClone
  rw [clone_file_exists_file he]

theorem mainRun_source_missing (cfg : Config) (source target : FPath)
    (srcCh : List (String × FTree)) (stdin : Char) (fs0 : FS)
    (h : fs0.lookup source = none) :
    mainRun cfg source target srcCh stdin fs0 = ⟨1, Msg.sourceMissing, fs0⟩ := by
  unfold mainRun
  rw [h]

theorem mainRun_target_file (cfg : Config) (source target : FPath)
    (srcCh : List (String × FTree)) (stdin : Char) (fs0 : FS) (e0 : Entry)
    (c : String) (m : Int)
    (hs : fs0.lookup source = some e0) (ht : fs0.lookup target = some (Entry.file c m)) :
    mainRun cfg source target srcCh stdin fs0 =
      if cfg.interactive && !(stdin == 'y' || stdin == 'Y') then ⟨0, Msg.skip, fs0⟩
      else
        match (if cfg.backup then fs0.backupFile target else some fs0) with
        | none => ⟨134, Msg.abortException, fs0⟩
        | some fs1 =>
          if !cfg.force && fs1.exists_ target then ⟨1, Msg.fileExists, fs1⟩
          else dispatch cfg source target srcCh stdin fs1 := by
  unfold mainRun
  rw [hs, ht]

theorem mainRun_target_dir (cfg : Config) (source target : FPath)
    (srcCh : List (String × FTree)) (stdin : Char) (fs0 : FS) (e0 : Entry)
    (hs : fs0.lookup source = some e0) (ht : fs0.lookup target = some Entry.dir) :
    mainRun cfg source target srcCh stdin fs0 = dispatch cfg source target srcCh stdin fs0 := by
  unfold mainRun
  rw [hs, ht]

theorem mainRun_target_none (cfg : Config) (source target : FPath)
    (srcCh : List (String × FTree)) (stdin : Char) (fs0 : FS) (e0 : Entry)
    (hs : fs0.lookup source = some e0) (ht : fs0.lookup target = none) :
    mainRun cfg source target srcCh stdin fs0 =
      if fs0.isDir source then
        if fs0.parentOk target then
          dispatch cfg source target srcCh stdin (fs0.insert target Entry.dir)
        else ⟨134, Msg.abortException, fs0⟩
      else dispatch cfg source target srcCh stdin fs0 := by
  unfold mainRun
  rw [hs, ht]

theorem dispatch_dir (cfg : Config) (source target : FPath)
    (srcCh : List (String × FTree)) (stdin : Char) (fs : FS)
    (hsd : fs.isDir source = true) :
    dispatch cfg source target srcCh stdin fs =
      if cfg.recursive then
        match copy_directory srcCh target cfg.preserve_permissions cfg.backup cfg.update fs with
        | (true, fs1) => ⟨0, Msg.success, fs1⟩
        | (false, fs1) => ⟨1, Msg.copyError, fs1⟩
      else ⟨1, Msg.useRecursive, fs⟩ := by
  unfold dispatch
  rw [if_pos hsd]

theorem dispatch_file (cfg : Config) (source target : FPath)
    (srcCh : List (String × FTree)) (stdin : Char) (fs : FS)
    (hsd : fs.isDir source = false) :
    dispatch cfg source target srcCh stdin fs =
      if fs.exists_ (if fs.isDir target then target ++ [filename source] else target)
          && !cfg.force then
        if cfg.interactive && !(stdin == 'y' || stdin == 'Y') then ⟨0, Msg.skip, fs⟩
        else
          match (if cfg.backup then
              fs.backupFile (if fs.isDir target then target ++ [filename source] else target)
            else some fs) with
          | none => ⟨134, Msg.abortException, fs⟩
          | some fs1 =>
            finishClone source
              (if fs.isDir target then target ++ [filename source] else target) fs1
      else
        finishClone source (if fs.isDir target then target ++ [filename source] else target) fs := by
  unfold dispatch
  rw [if_neg (by rw [hsd]; exact fun h => nomatch h)]

/-! ### Preservation through a whole run -/

theorem finishClone_preserves (source tpv : FPath) (fs : FS) (p : FPath) (e : Entry)
    (hp : fs.lookup p = some e) :
    ((finishClone source tpv fs).fs).lookup p = some e := by
  unfold finishClone
  rcases hc : clone_file source tpv fs with ⟨o, fs1⟩
  have hext := clone_file_ext hc p e hp
  cases o <;> exact hext

theorem lookup_backup_opt (bk : Bool) (fs : FS) (tp p : FPath) (e : Entry) (fs1 : FS)
    (hm : (if bk then fs.backupFile tp else some fs) = some fs1)
    (hp : fs.lookup p = some e) (hb : isBackup p = false) :
    fs1.lookup p = some e := by
  by_cases hbk : bk = true
  · rw [if_pos hbk] at hm
    exact FS.lookup_backupFile fs tp p e fs1 hm hp hb
  · rw [if_neg hbk] at hm
    injection hm with h1
    rw [← h1]
    exact hp

theorem dispatch_preserves (cfg : Config) (source target : FPath)
    (srcCh : List (String × FTree)) (stdin : Char) (fs : FS) (p : FPath) (e : Entry)
    (hp : fs.lookup p = some e) (hb : isBackup p = false) :
    ((dispatch cfg source target srcCh stdin fs).fs).lookup p = some e := by
  by_cases hsd : fs.isDir source = true
  · rw [dispatch_dir cfg source target srcCh stdin fs hsd]
    by_cases hr : cfg.recursive = true
    · rw [if_pos hr]
      have hpres := copy_directory_preserves srcCh target cfg.preserve_permissions
        cfg.backup cfg.update fs p e hp (Or.inr hb)
      rcases hcd : copy_directory srcCh target cfg.preserve_permissions
          cfg.backup cfg.update fs with ⟨bb, fs1⟩
      rw [hcd] at hpres
      cases bb <;> simp only [hcd] <;> exact hpres
    · rw [if_neg hr]
      exact hp
  · rw [dispatch_file cfg source target srcCh stdin fs (by
      cases hv : fs.isDir source
      · rfl
      · exact absurd hv hsd)]
    by_cases hex : (fs.exists_ (if fs.isDir target then target ++ [filename source] else target)
        && !cfg.force) = true
    · rw [if_pos hex]
      by_cases hint : (cfg.interactive && !(stdin == 'y' || stdin == 'Y')) = true
      · rw [if_pos hint]
        exact hp
      · rw [if_neg hint]
        rcases hm : (if cfg.backup then
            fs.backupFile (if fs.isDir target then target ++ [filename source] else target)
          else some fs) with _ | fs1
        · exact hp
        · simp only []
          exact finishClone_preserves source _ fs1 p e
            (lookup_backup_opt cfg.backup fs _ p e fs1 hm hp hb)
    · rw [if_neg hex]
      exact finishClone_preserves source _ _ p e hp

theorem mainRun_preserves (cfg : Config) (source target : FPath)
    (srcCh : List (String × FTree)) (stdin : Char) (fs0 : FS) (p : FPath) (e : Entry)
    (hp : fs0.lookup p = some e) (hb : isBackup p = false) :
    ((mainRun cfg source target srcCh stdin fs0).fs).lookup p = some e := by
  match hs : fs0.lookup source with
  | none =>
    rw [mainRun_source_missing cfg source target srcCh stdin fs0 hs]
    exact hp
  | some e0 =>
    match ht : fs0.lookup target with
    | some (Entry.file c m) =>
      rw [mainRun_target_file cfg source target srcCh stdin fs0 e0 c m hs ht]
      by_cases hint : (cfg.interactive && !(stdin == 'y' || stdin == 'Y')) = true
      · rw [if_pos hint]
        exact hp
      · rw [if_neg hint]
        rcases hm : (if cfg.backup then fs0.backupFile target else some fs0) with _ | fs1
        · exact hp
        · simp only []
          have hp1 : fs1.lookup p = some e :=
            lookup_backup_opt cfg.backup fs0 target p e fs1 hm hp hb
          by_cases hfe : (!cfg.force && fs1.exists_ target) = true
          · rw [if_pos hfe]
            exact hp1
          · rw [if_neg hfe]
            exact dispatch_preserves cfg source target srcCh stdin fs1 p e hp1 hb
    | some Entry.dir =>
      rw [mainRun_target_dir cfg source target srcCh stdin fs0 e0 hs ht]
      exact dispatch_preserves cfg source target srcCh stdin fs0 p e hp hb
    | none =>
      rw [mainRun_target_none cfg source target srcCh stdin fs0 e0 hs ht]
      by_cases hsd : fs0.isDir source = true
      · rw [if_pos hsd]
        by_cases hpk : fs0.parentOk target = true
        · rw [if_pos hpk]
          have hne : ¬ target = p := by
            intro h
            rw [h, hp] at ht
            cases ht
          have hp1 : (fs0.insert target Entry.dir).lookup p = some e := by
            rw [FS.lookup_insert_ne fs0 target p Entry.dir hne]
            exact hp
          exact dispatch_preserves cfg source target srcCh stdin _ p e hp1 hb
        · rw [if_neg hpk]
          exact hp
      · rw [if_neg hsd]
        exact dispatch_preserves cfg source target srcCh stdin fs0 p e hp hb

/-- An argument list consisting solely of flags leaves both positionals
unset, so they default to the empty path. -/
theorem parseArgs_all_flags :
    ∀ (args : List String) (cfg : Config), (∀ a ∈ args, isFlag a = true) →
    ∃ cfg', parseArgs args cfg none none = some (cfg', [], []) := by
  intro args
  induction args with
  | nil =>
    intro cfg _
    exact ⟨cfg, rfl⟩
  | cons a rest ih =>
    intro cfg hall
    have ha : isFlag a = true := hall a (List.mem_cons_self a rest)
    have hrest : ∀ x ∈ rest, isFlag x = true := fun x hx => hall x (List.mem_cons_of_mem a hx)
    obtain ⟨cfg', hcfg'⟩ := ih (applyFlag cfg a) hrest
    refine ⟨cfg', ?_⟩
    unfold parseArgs
    rw [if_pos ha]
    exact hcfg'

theorem copy_directory_file_step_gen (name c : String) (m : Int)
    (rest : List (String × FTree)) (target : FPath) (pp b u : Bool) (fs : FS) :
    copy_directory ((name, FTree.file c m) :: rest) target pp b u fs =
      if u && fs.exists_ (target ++ [name])
          && !(decide (m > fs.lastWriteTime (target ++ [name]))) then
        copy_directory rest target pp b u fs
      else
        match (if b && fs.exists_ (target ++ [name]) then
            fs.backupFile (target ++ [name])
          else some fs) with
        | none => (false, fs)
        | some fs1 =>
          match cloneEntry c m (target ++ [name]) fs1 with
          | (CloneOutcome.ok, fs2) => copy_directory rest target pp b u fs2
          | (_, fs2) => (false, fs2) := by
  simp only [copy_directory]

/-- C1: the spec scenario says `-f -b` on an existing single-file target exits
0 with the target overwritten by the source's content; the code instead backs
the target up and then calls `clone_file`, which refuses because the target
still exists, so the run exits 1 with the target content unchanged (`b~` does
hold the old content).  Evaluation of the model at the failing input. -/
theorem C1_force_backup_run :
    mainRun cfgC1 ["a"] ["b"] [] 'n' fsC1 =
      ⟨1, Msg.cloneError,
        ⟨[(["b~"], Entry.file "old" 0), (["a"], Entry.file "new" 1),
          (["b"], Entry.file "old" 0)]⟩⟩ := by
  decide

/-- C2 (counterexample): in a recursive mirror with force and interactive both
set, a file entry whose target exists is neither prompted for (the result is
identical for stdin `n` and `y`) nor overwritten (force is ignored): the entry
fails, exit 1, target content unchanged. -/
theorem C2_cex :
    mainRun cfgC2 ["s"] ["t"] chC2 'n' fsC2 = mainRun cfgC2 ["s"] ["t"] chC2 'y' fsC2 ∧
    (mainRun cfgC2 ["s"] ["t"] chC2 'n' fsC2).exit = 1 ∧
    ((mainRun cfgC2 ["s"] ["t"] chC2 'n' fsC2).fs).lookup ["t", "x"] =
      some (Entry.file "old" 0) := by
  have hcd : copy_directory chC2 ["t"] cfgC2.preserve_permissions cfgC2.backup
      cfgC2.update fsC2 = (false, fsC2) := by
    unfold chC2
    rw [copy_directory_file_step_gen]
    decide
  have hmr : ∀ st : Char, mainRun cfgC2 ["s"] ["t"] chC2 st fsC2 =
      ⟨1, Msg.copyError, fsC2⟩ := by
    intro st
    rw [mainRun_target_dir cfgC2 ["s"] ["t"] chC2 st fsC2 Entry.dir (by decide) (by decide)]
    rw [dispatch_dir cfgC2 ["s"] ["t"] chC2 st fsC2 (by decide)]
    rw [if_pos (show cfgC2.recursive = true from rfl)]
    rw [hcd]
  rw [hmr 'n', hmr 'y']
  exact ⟨rfl, rfl, by decide⟩

/-- C2 (amended): during a recursive mirror, for a file entry whose target
exists as a file and is not update-skipped, `copy_directory` applies only the
backup part of the conflict policy - interactive and force are not even
parameters of the walk, so no prompt occurs and force cannot make the copy
proceed - and the entry always fails: either the backup copy itself fails
(for instance when a directory occupies the `name~` path), failing the entry
with nothing written, or the backup is written and the clone then refuses
the existing target. -/
theorem C2_amended :
    ∀ (name c : String) (m : Int) (rest : List (String × FTree)) (target : FPath)
      (pp b u : Bool) (fs : FS) (c₀ : String) (m₀ : Int),
    fs.lookup (target ++ [name]) = some (Entry.file c₀ m₀) →
    (u = false ∨ m > m₀) →
    copy_directory ((name, FTree.file c m) :: rest) target pp b u fs =
      (false, if b then (fs.backupFile (target ++ [name])).getD fs else fs) := by
  intro name c m rest target pp b u fs c₀ m₀ hlk hcond
  have hex : fs.exists_ (target ++ [name]) = true := by
    simp [FS.exists_, hlk]
  have hlwt : fs.lastWriteTime (target ++ [name]) = m₀ := by
    simp [FS.lastWriteTime, hlk]
  have hskip : (u && fs.exists_ (target ++ [name])
      && !(decide (m > fs.lastWriteTime (target ++ [name])))) = false := by
    rcases hcond with h | h
    · rw [h]
      rfl
    · rw [hex, hlwt, decide_eq_true h]
      simp
  rw [copy_directory_file_step_gen]
  rw [if_neg (by rw [hskip]; exact fun h => nomatch h)]
  have harg : (if (b && fs.exists_ (target ++ [name])) = true then
      fs.backupFile (target ++ [name]) else some fs) =
      (if b = true then fs.backupFile (target ++ [name]) else some fs) := by
    rw [hex, Bool.and_true]
  rw [harg]
  by_cases hbk : b = true
  · rw [if_pos hbk, if_pos hbk]
    rcases hbf : fs.backupFile (target ++ [name]) with _ | fs1
    · rfl
    · have hlk1 : fs1.lookup (target ++ [name]) = some (Entry.file c₀ m₀) := by
        rw [FS.lookup_backupFile_of_ne fs (target ++ [name]) (target ++ [name]) fs1 hbf
          (fun h => addTilde_ne (target ++ [name]) h.symm)]
        exact hlk
      simp only [cloneEntry_file_fail hlk1, Option.getD_some]
  · rw [if_neg hbk, if_neg hbk]
    simp only [cloneEntry_file_fail hlk]

theorem C2_amended_witness :
    fsC2.lookup (["t"] ++ ["x"]) = some (Entry.file "old" 0) ∧
    copy_directory [("x", FTree.file "new" 5)] ["t"] false true false fsC2 =
      (false, if true then (fsC2.backupFile (["t"] ++ ["x"])).getD fsC2 else fsC2) ∧
    fsC2b.lookup (["t"] ++ ["x"]) = some (Entry.file "old" 0) ∧
    fsC2b.backupFile (["t"] ++ ["x"]) = none ∧
    copy_directory [("x", FTree.file "new" 5)] ["t"] false true false fsC2b =
      (false, if true then (fsC2b.backupFile (["t"] ++ ["x"])).getD fsC2b else fsC2b) :=
  ⟨by decide,
   C2_amended "x" "new" 5 [] ["t"] false true false fsC2 "old" 0 (by decide) (Or.inl rfl),
   by decide, by decide,
   C2_amended "x" "new" 5 [] ["t"] false true false fsC2b "old" 0 (by decide) (Or.inl rfl)⟩

/-- C3: running the tree walker twice (update off; backup off, matching the
`-f`-only flag set of the spec's idempotence scenario - force is not consulted
by the walker at all) yields the same final target state as running it once:
the second run performs no write, because every path the first run created
still exists and the clone primitive refuses existing targets. -/
theorem C3_mirror_idempotent :
    ∀ (ch : List (String × FTree)) (tgt : FPath) (pp : Bool) (fs : FS),
    (tgt = [] ∨ fs.isDir tgt = true) →
    (copy_directory ch tgt pp false false
        ((copy_directory ch tgt pp false false fs).2)).2 =
      (copy_directory ch tgt pp false false fs).2 := by
  intro ch tgt pp fs hyp
  rcases hrun : copy_directory ch tgt pp false false fs with ⟨br, fs₁⟩
  obtain ⟨b', h2, _⟩ := copy_directory_rerun ch tgt pp false false fs rfl rfl
    br fs₁ hrun hyp fs₁ (fsext_rfl fs₁)
  show (copy_directory ch tgt pp false false fs₁).2 = fs₁
  rw [h2]

theorem C3_witness :
    fsC3.isDir ["t"] = true ∧
    (copy_directory chC3 ["t"] false false false
        ((copy_directory chC3 ["t"] false false false fsC3).2)).2 =
      (copy_directory chC3 ["t"] false false false fsC3).2 :=
  ⟨by decide, C3_mirror_idempotent chC3 ["t"] false fsC3 (Or.inr (by decide))⟩

/-- C4: whenever the target exists as a file and both force and interactive
are off, the run fails with a non-zero exit code (the `File exists` branch)
and the target's entry - content and mtime - is unchanged. -/
theorem C4_conflict_no_force :
    ∀ (cfg : Config) (source target : FPath) (srcCh : List (String × FTree))
      (stdin : Char) (fs : FS) (c : String) (m : Int),
    cfg.force = false → cfg.interactive = false →
    fs.lookup target = some (Entry.file c m) →
    ¬ (mainRun cfg source target srcCh stdin fs).exit = 0 ∧
    ((mainRun cfg source target srcCh stdin fs).fs).lookup target =
      some (Entry.file c m) := by
  intro cfg source target srcCh stdin fs c m hf hi ht
  match hs : fs.lookup source with
  | none =>
    rw [mainRun_source_missing cfg source target srcCh stdin fs hs]
    exact ⟨Nat.one_ne_zero, ht⟩
  | some e0 =>
    have hstep := mainRun_target_file cfg source target srcCh stdin fs e0 c m hs ht
    rw [if_neg (by rw [hi]; exact fun h => nomatch h)] at hstep
    rcases hm : (if cfg.backup then fs.backupFile target else some fs) with _ | fs1
    · simp only [hm] at hstep
      rw [hstep]
      refine ⟨fun h => ?_, ht⟩
      simp at h
    · simp only [hm] at hstep
      have hp1 : fs1.lookup target = some (Entry.file c m) := by
        by_cases hbk : cfg.backup = true
        · rw [if_pos hbk] at hm
          rw [FS.lookup_backupFile_of_ne fs target target fs1 hm
            (fun h => addTilde_ne target h.symm)]
          exact ht
        · rw [if_neg hbk] at hm
          injection hm with h1
          rw [← h1]
          exact ht
      rw [if_pos (by rw [hf]; simp [FS.exists_, hp1])] at hstep
      rw [hstep]
      exact ⟨Nat.one_ne_zero, hp1⟩

theorem C4_witness :
    cfgC4.force = false ∧ cfgC4.interactive = false ∧
    fsC4.lookup ["b"] = some (Entry.file "old" 0) ∧
    ¬ (mainRun cfgC4 ["a"] ["b"] [] 'n' fsC4).exit = 0 ∧
    ((mainRun cfgC4 ["a"] ["b"] [] 'n' fsC4).fs).lookup ["b"] =
      some (Entry.file "old" 0) :=
  ⟨rfl, rfl, by decide,
   (C4_conflict_no_force cfgC4 ["a"] ["b"] [] 'n' fsC4 "old" 0 rfl rfl (by decide)).1,
   (C4_conflict_no_force cfgC4 ["a"] ["b"] [] 'n' fsC4 "old" 0 rfl rfl (by decide)).2⟩

/-- C5 (counterexample): with interactive and force both set and the target an
existing directory containing a file of the source's name, the declining user
is never prompted: the `exists && !force` guard (cf.cpp line 261) skips the
prompt, the clone fails on the existing file, and the run exits 1, not 0. -/
theorem C5_cex :
    cfgC5.interactive = true ∧
    fsC5.lookup (["d"] ++ [filename ["a"]]) = some (Entry.file "old" 0) ∧
    ¬ ('n' = 'y') ∧ ¬ ('n' = 'Y') ∧
    (mainRun cfgC5 ["a"] ["d"] [] 'n' fsC5).exit = 1 := by
  decide

/-- C5 (amended): a non-affirmative response to the interactive prompt exits 0
with no copy and no backup, in the two situations where the prompt is actually
read: the given target path itself exists as a file (any force value), or the
target is a directory, the redirected path `target/filename` exists as a file,
and force is disabled.  (With force enabled in the directory case no prompt is
consulted and the run instead fails on the clone.) -/
theorem C5_amended :
    (∀ (cfg : Config) (source target : FPath) (srcCh : List (String × FTree))
       (stdin : Char) (fs : FS) (e0 : Entry) (c : String) (m : Int),
      cfg.interactive = true → ¬ stdin = 'y' → ¬ stdin = 'Y' →
      fs.lookup source = some e0 →
      fs.lookup target = some (Entry.file c m) →
      mainRun cfg source target srcCh stdin fs = ⟨0, Msg.skip, fs⟩) ∧
    (∀ (cfg : Config) (source target : FPath) (srcCh : List (String × FTree))
       (stdin : Char) (fs : FS) (cs : String) (ms : Int) (c : String) (m : Int),
      cfg.interactive = true → cfg.force = false → ¬ stdin = 'y' → ¬ stdin = 'Y' →
      fs.lookup source = some (Entry.file cs ms) →
      fs.lookup target = some Entry.dir →
      fs.lookup (target ++ [filename source]) = some (Entry.file c m) →
      mainRun cfg source target srcCh stdin fs = ⟨0, Msg.skip, fs⟩) := by
  constructor
  · intro cfg source target srcCh stdin fs e0 c m hi hy hY hs ht
    rw [mainRun_target_file cfg source target srcCh stdin fs e0 c m hs ht]
    have h1 : (stdin == 'y') = false := by
      simp [hy]
    have h2 : (stdin == 'Y') = false := by
      simp [hY]
    rw [if_pos (by rw [hi, h1, h2]; rfl)]
  · intro cfg source target srcCh stdin fs cs ms c m hi hf hy hY hs ht htp
    rw [mainRun_target_dir cfg source target srcCh stdin fs (Entry.file cs ms) hs ht]
    have hsd : fs.isDir source = false := by
      simp [FS.isDir, hs]
    rw [dispatch_file cfg source target srcCh stdin fs hsd]
    have hdt : fs.isDir target = true := by
      simp [FS.isDir, ht]
    have htpv : (if fs.isDir target then target ++ [filename source] else target) =
        target ++ [filename source] := by
      rw [hdt, if_pos rfl]
    rw [htpv]
    have hex : (fs.exists_ (target ++ [filename source]) && !cfg.force) = true := by
      rw [hf]
      simp [FS.exists_, htp]
    rw [if_pos hex]
    have h1 : (stdin == 'y') = false := by
      simp [hy]
    have h2 : (stdin == 'Y') = false := by
      simp [hY]
    rw [if_pos (by rw [hi, h1, h2]; rfl)]

theorem C5_amended_witness :
    cfgC5b.interactive = true ∧ ¬ ('n' = 'y') ∧ ¬ ('n' = 'Y') ∧
    fsC4.lookup ["b"] = some (Entry.file "old" 0) ∧
    mainRun cfgC5b ["a"] ["b"] [] 'n' fsC4 = ⟨0, Msg.skip, fsC4⟩ ∧
    cfgC5b.force = false ∧
    fsC5.lookup ["d"] = some Entry.dir ∧
    fsC5.lookup (["d"] ++ [filename ["a"]]) = some (Entry.file "old" 0) ∧
    mainRun cfgC5b ["a"] ["d"] [] 'n' fsC5 = ⟨0, Msg.skip, fsC5⟩ :=
  ⟨rfl, by decide, by decide, by decide,
   C5_amended.1 cfgC5b ["a"] ["b"] [] 'n' fsC4 (Entry.file "new" 1) "old" 0 rfl
     (by decide) (by decide) (by decide) (by decide),
   rfl, by decide, by decide,
   C5_amended.2 cfgC5b ["a"] ["d"] [] 'n' fsC5 "new" 5 "old" 0 rfl rfl
     (by decide) (by decide) (by decide) (by decide) (by decide)⟩

/-- C6 (counterexample): with update-only and backup both enabled, the entry
`x~` has an existing target whose mtime (99) is not older than its source's
(10), so the claim says it must be byte-for-byte unchanged after the run; but
the earlier sibling `x` (whose target is older) fires a backup to `x` + `~`,
overwriting that very file before the run aborts on `x`'s clone. -/
theorem C6_cex :
    fsC6.lookup ["t", "x~"] = some (Entry.file "oldy" 99) ∧
    ¬ ((10 : Int) > 99) ∧
    ((copy_directory chC6 ["t"] false true true fsC6).2).lookup ["t", "x~"] =
      some (Entry.file "oldx" 0) ∧
    ¬ ((copy_directory chC6 ["t"] false true true fsC6).2).lookup ["t", "x~"] =
      some (Entry.file "oldy" 99) := by
  have hcd : copy_directory chC6 ["t"] false true true fsC6 =
      (false, fsC6.insert ["t", "x~"] (Entry.file "oldx" 0)) := by
    unfold chC6
    rw [copy_directory_file_step_gen]
    decide
  rw [hcd]
  decide

/-- C6 (amended): with update-only enabled, a file entry whose target exists
with mtime not strictly older than the source's is skipped without error when
the traversal reaches it (the state is unchanged and processing continues with
the remaining entries); and the target file is unchanged by the whole run
provided its path is not a backup path (final component ending in `~`) or
backup is disabled - a backup of a sibling whose name plus `~` collides with
this file can otherwise overwrite it before the entry is reached. -/
theorem C6_amended :
    (∀ (name c : String) (m : Int) (rest : List (String × FTree)) (target : FPath)
       (pp b : Bool) (fs : FS),
      fs.exists_ (target ++ [name]) = true →
      ¬ m > fs.lastWriteTime (target ++ [name]) →
      copy_directory ((name, FTree.file c m) :: rest) target pp b true fs =
        copy_directory rest target pp b true fs) ∧
    (∀ (ch : List (String × FTree)) (target : FPath) (pp b : Bool) (fs : FS)
       (p : FPath) (c' : String) (m' : Int),
      fs.lookup p = some (Entry.file c' m') →
      (b = false ∨ isBackup p = false) →
      ((copy_directory ch target pp b true fs).2).lookup p =
        some (Entry.file c' m')) := by
  constructor
  · intro name c m rest target pp b fs hex hm
    rw [copy_directory_file_step_gen]
    rw [if_pos (by rw [hex, decide_eq_false hm]; rfl)]
  · intro ch target pp b fs p c' m' hp hb
    exact copy_directory_preserves ch target pp b true fs p (Entry.file c' m') hp hb

theorem C6_amended_witness :
    fsC6w.exists_ (["t"] ++ ["y"]) = true ∧ ¬ (3 : Int) > 7 ∧
    copy_directory [("y", FTree.file "s" 3)] ["t"] false false true fsC6w =
      copy_directory [] ["t"] false false true fsC6w ∧
    fsC6w.lookup ["t", "y"] = some (Entry.file "old" 7) ∧
    isBackup ["t", "y"] = false ∧
    ((copy_directory [("y", FTree.file "s" 3)] ["t"] false false true fsC6w).2).lookup
      ["t", "y"] = some (Entry.file "old" 7) :=
  ⟨by decide, by decide,
   C6_amended.1 "y" "s" 3 [] ["t"] false false fsC6w (by decide) (by decide),
   by decide, by decide,
   C6_amended.2 [("y", FTree.file "s" 3)] ["t"] false false fsC6w ["t", "y"] "old" 7
     (by decide) (Or.inr (by decide))⟩

/-- C7: the clone primitive refuses a directory target with the
target-is-directory outcome (the branch that sets `errno = EEXIST`, cf.cpp
line 39) leaving the filesystem untouched, and more generally every failing
call leaves the filesystem exactly as it was. -/
theorem C7_clone_primitive :
    (∀ (source target : FPath) (fs : FS),
      fs.lookup target = some Entry.dir →
      clone_file source target fs = (CloneOutcome.errTargetIsDir, fs)) ∧
    (∀ (source target : FPath) (fs : FS) (o : CloneOutcome) (fs' : FS),
      clone_file source target fs = (o, fs') → ¬ o = CloneOutcome.ok →
      fs' = fs) := by
  constructor
  · intro source target fs h
    exact clone_file_exists_dir h
  · intro source target fs o fs' h hno
    unfold clone_file at h
    match he : fs.lookup target with
    | some Entry.dir =>
      rw [he] at h
      injection h with h1 h2
      exact h2.symm
    | some (Entry.file c' m') =>
      rw [he] at h
      injection h with h1 h2
      exact h2.symm
    | none =>
      rw [he] at h
      match hsrc : fs.lookup source with
      | some (Entry.file c m) =>
        simp only [hsrc] at h
        by_cases hp : fs.parentOk target = true
        · rw [if_pos hp] at h
          injection h with h1 h2
          exact absurd h1.symm hno
        · rw [if_neg hp] at h
          injection h with h1 h2
          exact h2.symm
      | some Entry.dir =>
        simp only [hsrc] at h
        injection h with h1 h2
        exact h2.symm
      | none =>
        simp only [hsrc] at h
        injection h with h1 h2
        exact h2.symm

theorem C7_witness :
    fsC7.lookup ["d"] = some Entry.dir ∧
    clone_file ["a"] ["d"] fsC7 = (CloneOutcome.errTargetIsDir, fsC7) ∧
    ¬ (clone_file ["a"] ["b"] fsC7).1 = CloneOutcome.ok ∧
    (clone_file ["a"] ["b"] fsC7).2 = fsC7 :=
  ⟨by decide, C7_clone_primitive.1 ["a"] ["d"] fsC7 (by decide), by decide,
   C7_clone_primitive.2 ["a"] ["b"] fsC7 (clone_file ["a"] ["b"] fsC7).1
     (clone_file ["a"] ["b"] fsC7).2 rfl (by decide)⟩

/-- C8 (counterexample): source a directory, recursive flag off, target
missing: the run does report use-recursive and exit 1, but it has already
created the target directory (cf.cpp line 233), so the filesystem is
modified. -/
theorem C8_cex :
    defaultConfig.recursive = false ∧
    fsC8.lookup ["s"] = some Entry.dir ∧
    fsC8.lookup ["t"] = none ∧
    (mainRun defaultConfig ["s"] ["t"] [("x", FTree.file "new" 5)] 'n' fsC8).exit = 1 ∧
    (mainRun defaultConfig ["s"] ["t"] [("x", FTree.file "new" 5)] 'n' fsC8).msg =
      Msg.useRecursive ∧
    ((mainRun defaultConfig ["s"] ["t"] [("x", FTree.file "new" 5)] 'n' fsC8).fs).lookup
      ["t"] = some Entry.dir := by
  decide

/-- C8 (amended): with a directory source and the recursive flag off, a run
that reaches the dispatch (the target is a directory, or missing but
non-empty with an available parent - an existing file target is handled by
the top-level conflict block first, and an empty or parent-less target path
aborts the process inside `fs::create_directory`) reports use-recursive and
exits 1 without copying any file; but when the target was missing it has
been created as an empty directory beforehand. -/
theorem C8_amended :
    (∀ (cfg : Config) (source target : FPath) (srcCh : List (String × FTree))
       (stdin : Char) (fs : FS),
      cfg.recursive = false → fs.lookup source = some Entry.dir →
      fs.lookup target = some Entry.dir →
      mainRun cfg source target srcCh stdin fs = ⟨1, Msg.useRecursive, fs⟩) ∧
    (∀ (cfg : Config) (source target : FPath) (srcCh : List (String × FTree))
       (stdin : Char) (fs : FS),
      cfg.recursive = false → fs.lookup source = some Entry.dir →
      fs.lookup target = none → fs.parentOk target = true →
      mainRun cfg source target srcCh stdin fs =
        ⟨1, Msg.useRecursive, fs.insert target Entry.dir⟩) := by
  constructor
  · intro cfg source target srcCh stdin fs hr hs ht
    rw [mainRun_target_dir cfg source target srcCh stdin fs Entry.dir hs ht]
    rw [dispatch_dir cfg source target srcCh stdin fs (by simp [FS.isDir, hs])]
    rw [if_neg (by rw [hr]; exact fun h => nomatch h)]
  · intro cfg source target srcCh stdin fs hr hs ht hpk
    rw [mainRun_target_none cfg source target srcCh stdin fs Entry.dir hs ht]
    have hsd : fs.isDir source = true := by
      simp [FS.isDir, hs]
    rw [if_pos hsd, if_pos hpk]
    have hne : ¬ target = source := by
      intro h
      rw [h, hs] at ht
      cases ht
    have hsd2 : (fs.insert target Entry.dir).isDir source = true := by
      unfold FS.isDir
      rw [FS.lookup_insert_ne fs target source Entry.dir hne, hs]
    rw [dispatch_dir cfg source target srcCh stdin (fs.insert target Entry.dir) hsd2]
    rw [if_neg (by rw [hr]; exact fun h => nomatch h)]

theorem C8_amended_witness :
    defaultConfig.recursive = false ∧
    fsC8w.lookup ["s"] = some Entry.dir ∧ fsC8w.lookup ["t"] = some Entry.dir ∧
    mainRun defaultConfig ["s"] ["t"] [] 'n' fsC8w = ⟨1, Msg.useRecursive, fsC8w⟩ ∧
    fsC8.lookup ["t"] = none ∧ fsC8.parentOk ["t"] = true ∧
    mainRun defaultConfig ["s"] ["t"] [] 'n' fsC8 =
      ⟨1, Msg.useRecursive, fsC8.insert ["t"] Entry.dir⟩ :=
  ⟨rfl, by decide, by decide,
   C8_amended.1 defaultConfig ["s"] ["t"] [] 'n' fsC8w rfl (by decide) (by decide),
   by decide, by decide,
   C8_amended.2 defaultConfig ["s"] ["t"] [] 'n' fsC8 rfl (by decide) (by decide)
     (by decide)⟩

/-- C9 (counterexample): two flag arguments and zero positionals pass the
`argc < 3` check (it counts flags), so no usage text is printed: the run exits
1 with the missing-source diagnostic instead. -/
theorem C9_cex :
    (["-a", "-b"].filter (fun a => !(isFlag a))).length = 0 ∧
    (cmain ["-a", "-b"] [] 'n' ⟨[]⟩).exit = 1 ∧
    ¬ (cmain ["-a", "-b"] [] 'n' ⟨[]⟩).msg = Msg.usage := by
  decide

/-- C9 (amended): the usage text is printed (with exit 1) exactly when the
total number of arguments - flags and positionals alike - is below two; an
invocation with at least two arguments, all of them flags (so zero
positionals), prints no usage and exits 1 with the missing-source diagnostic
(both unset positionals default to the empty path, which never exists). -/
theorem C9_amended :
    (∀ (args : List String) (srcCh : List (String × FTree)) (stdin : Char) (fs : FS),
      args.length < 2 → cmain args srcCh stdin fs = ⟨1, Msg.usage, fs⟩) ∧
    (∀ (args : List String) (srcCh : List (String × FTree)) (stdin : Char) (fs : FS),
      2 ≤ args.length → (∀ a ∈ args, isFlag a = true) → fs.lookup [] = none →
      cmain args srcCh stdin fs = ⟨1, Msg.sourceMissing, fs⟩) := by
  constructor
  · intro args srcCh stdin fs h
    unfold cmain
    rw [if_pos h]
  · intro args srcCh stdin fs hlen hall hroot
    unfold cmain
    rw [if_neg (by omega)]
    obtain ⟨cfg', hcfg'⟩ := parseArgs_all_flags args defaultConfig hall
    rw [hcfg']
    exact mainRun_source_missing cfg' [] [] srcCh stdin fs hroot

theorem C9_witness :
    (["x"] : List String).length < 2 ∧
    cmain ["x"] [] 'n' ⟨[]⟩ = ⟨1, Msg.usage, ⟨[]⟩⟩ ∧
    2 ≤ (["-f", "-d"] : List String).length ∧
    (FS.mk []).lookup [] = none ∧
    cmain ["-f", "-d"] [] 'n' ⟨[]⟩ = ⟨1, Msg.sourceMissing, ⟨[]⟩⟩ :=
  ⟨by decide, C9_amended.1 ["x"] [] 'n' ⟨[]⟩ (by decide), by decide, by decide,
   C9_amended.2 ["-f", "-d"] [] 'n' ⟨[]⟩ (by decide) (by decide) (by decide)⟩

/-- C10: the clone primitive fails, changing nothing, whenever its target
already exists (in particular force cannot make it overwrite), and across a
whole run of `main` every pre-existing entry at a non-backup path (final
component not ending in `~`) is left exactly as it was: the only in-place
overwrites are the `~` backups, and all other writes go to paths that did not
exist. -/
theorem C10_no_overwrite :
    (∀ (source target : FPath) (fs : FS) (e : Entry),
      fs.lookup target = some e →
      ¬ (clone_file source target fs).1 = CloneOutcome.ok ∧
      (clone_file source target fs).2 = fs) ∧
    (∀ (cfg : Config) (source target : FPath) (srcCh : List (String × FTree))
       (stdin : Char) (fs : FS) (p : FPath) (e : Entry),
      fs.lookup p = some e → isBackup p = false →
      ((mainRun cfg source target srcCh stdin fs).fs).lookup p = some e) := by
  constructor
  · intro source target fs e he
    cases e with
    | dir =>
      rw [clone_file_exists_dir he]
      refine ⟨?_, rfl⟩
      intro h
      exact nomatch h
    | file c m =>
      rw [clone_file_exists_file he]
      refine ⟨?_, rfl⟩
      intro h
      exact nomatch h
  · intro cfg source target srcCh stdin fs p e hp hb
    exact mainRun_preserves cfg source target srcCh stdin fs p e hp hb

theorem C10_witness :
    fsC10.lookup ["b"] = some (Entry.file "y" 2) ∧
    ¬ (clone_file ["a"] ["b"] fsC10).1 = CloneOutcome.ok ∧
    (clone_file ["a"] ["b"] fsC10).2 = fsC10 ∧
    isBackup ["b"] = false ∧
    ((mainRun cfgC10 ["a"] ["b"] [] 'n' fsC10).fs).lookup ["b"] =
      some (Entry.file "y" 2) :=
  ⟨by decide,
   (C10_no_overwrite.1 ["a"] ["b"] fsC10 (Entry.file "y" 2) (by decide)).1,
   (C10_no_overwrite.1 ["a"] ["b"] fsC10 (Entry.file "y" 2) (by decide)).2,
   by decide,
   C10_no_overwrite.2 cfgC10 ["a"] ["b"] [] 'n' fsC10 ["b"] (Entry.file "y" 2)
     (by decide) (by decide)⟩
